import Mathlib

/-!
Shallow embedding of ruimo/local_file_cache (src/lib.rs).

The filesystem is modelled as a finite map from paths (lists of
components) to byte contents, together with a list of existing
directories.  Every fallible syscall first consults a fault oracle
(a list of optional error kinds, one entry consumed per syscall, an
empty list meaning no injected faults); this lets us state the
error-propagation claims.  The cache operations `new`, `flush`,
`or_insert_with` and `save_to` are transcribed from the Rust source.
-/

/-- The error kinds distinguished by the source code:
it branches on NotFound and AlreadyExists; everything else is opaque. -/
inductive ErrKind : Type where
  | notFound
  | alreadyExists
  | permissionDenied
  | other
deriving DecidableEq

/-- A filesystem path, as a list of components (what Rust PathBuf push builds). -/
abbrev FPath := List String

/-- File contents, a list of bytes (values unconstrained). -/
abbrev Bytes := List Nat

/-- The filesystem: an association list of files and the list of existing directories. -/
structure FS where
  files : List (FPath × Bytes)
  dirs : List FPath
deriving DecidableEq

/-- A world: the filesystem plus the fault oracle. -/
structure World where
  fs : FS
  faults : List (Option ErrKind)
deriving DecidableEq

deriving instance DecidableEq for Except

/-- Pop the next entry of the fault oracle (none when exhausted). -/
def popFault (w : World) : Option ErrKind × World :=
  match w.faults with
  | [] => (none, w)
  | f :: rest => (f, { w with faults := rest })

/-- Look a file up in the association list. -/
def lookupFile : List (FPath × Bytes) → FPath → Option Bytes
  | [], _ => none
  | (q, c) :: rest, p => if q = p then some c else lookupFile rest p

/-- Remove a file from the association list. -/
def removeFile : List (FPath × Bytes) → FPath → List (FPath × Bytes)
  | [], _ => []
  | (q, c) :: rest, p => if q = p then removeFile rest p else (q, c) :: removeFile rest p

/-- Create or overwrite a file. -/
def setFile (fsf : List (FPath × Bytes)) (p : FPath) (c : Bytes) : List (FPath × Bytes) :=
  (p, c) :: removeFile fsf p

/-- `underDir root p` holds when `p` is `root` itself or lies below it. -/
def underDir : FPath → FPath → Bool
  | [], _ => true
  | _ :: _, [] => false
  | r :: rs, q :: qs => if r = q then underDir rs qs else false

/-- All nonempty initial segments of a path: the chain of ancestors
that create_dir_all must ensure. -/
def nonemptyInits (p : FPath) : List FPath :=
  (List.range p.length).map (fun i => p.take (i + 1))

/-- Record one directory as existing (no-op when it already does). -/
def insertDir (ds : List FPath) (q : FPath) : List FPath :=
  if q ∈ ds then ds else ds ++ [q]

/-- Add a directory and all its ancestors, keeping already existing ones in place. -/
def addDirs (dirs : List FPath) (p : FPath) : List FPath :=
  (nonemptyInits p).foldl insertDir dirs

/-! ### Syscall models (each consumes one fault-oracle entry) -/

/-- fs::create_dir_all: ensures the directory and all ancestors exist. -/
def createDirAll (p : FPath) (w : World) : Except ErrKind Unit × World :=
  match popFault w with
  | (some k, w) => (.error k, w)
  | (none, w) => (.ok (), { w with fs := { w.fs with dirs := addDirs w.fs.dirs p } })

/-- File::open for reading: yields the handle, modelled as the file's
content snapshot; NotFound when the file is absent. -/
def openRead (p : FPath) (w : World) : Except ErrKind Bytes × World :=
  match popFault w with
  | (some k, w) => (.error k, w)
  | (none, w) =>
    match lookupFile w.fs.files p with
    | some c => (.ok c, w)
    | none => (.error .notFound, w)

/-- fh.metadata()?.len(): the length recorded for the opened handle. -/
def metadataLen (handle : Bytes) (w : World) : Except ErrKind Nat × World :=
  match popFault w with
  | (some k, w) => (.error k, w)
  | (none, w) => (.ok handle.length, w)

/-- fh.read_exact into a buffer of size n: fails (UnexpectedEof, an
"other" kind here) when the handle holds fewer than n bytes. -/
def readExact (handle : Bytes) (n : Nat) (w : World) : Except ErrKind Bytes × World :=
  match popFault w with
  | (some k, w) => (.error k, w)
  | (none, w) =>
    if n ≤ handle.length then (.ok (handle.take n), w) else (.error .other, w)

/-- OpenOptions::new().write(true).create_new(true).open: exclusive
create; AlreadyExists when a file is already at the path. -/
def openCreateNew (p : FPath) (w : World) : Except ErrKind Unit × World :=
  match popFault w with
  | (some k, w) => (.error k, w)
  | (none, w) =>
    match lookupFile w.fs.files p with
    | some _ => (.error .alreadyExists, w)
    | none => (.ok (), { w with fs := { w.fs with files := setFile w.fs.files p [] } })

/-- f.write_all(bytes) on the freshly created file at p. -/
def writeAll (p : FPath) (bytes : Bytes) (w : World) : Except ErrKind Unit × World :=
  match popFault w with
  | (some k, w) => (.error k, w)
  | (none, w) => (.ok (), { w with fs := { w.fs with files := setFile w.fs.files p bytes } })

/-- fs::rename(src, dst): atomically moves src onto dst. -/
def renameFile (src dst : FPath) (w : World) : Except ErrKind Unit × World :=
  match popFault w with
  | (some k, w) => (.error k, w)
  | (none, w) =>
    match lookupFile w.fs.files src with
    | some c =>
      (.ok (), { w with fs := { w.fs with files := setFile (removeFile w.fs.files src) dst c } })
    | none => (.error .notFound, w)

/-- fs::remove_dir_all: recursively deletes the directory; NotFound when absent. -/
def removeDirAll (p : FPath) (w : World) : Except ErrKind Unit × World :=
  match popFault w with
  | (some k, w) => (.error k, w)
  | (none, w) =>
    if p ∈ w.fs.dirs then
      (.ok (), { w with fs :=
        { files := w.fs.files.filter (fun fc => ! underDir p fc.1),
          dirs := w.fs.dirs.filter (fun d => ! underDir p d) } })
    else (.error .notFound, w)

/-- fs::create_dir: creates the single directory; AlreadyExists when present. -/
def createDir (p : FPath) (w : World) : Except ErrKind Unit × World :=
  match popFault w with
  | (some k, w) => (.error k, w)
  | (none, w) =>
    if p ∈ w.fs.dirs then (.error .alreadyExists, w)
    else (.ok (), { w with fs := { w.fs with dirs := w.fs.dirs ++ [p] } })

/-! ### Rust PathBuf::set_extension("save") on the final component -/

/-- Index of the last dot of a character list, if any. -/
def lastDotIdx : List Char → Option Nat
  | [] => none
  | c :: cs =>
    match lastDotIdx cs with
    | some i => some (i + 1)
    | none => if c = '.' then some 0 else none

/-- Rust Path::file_stem of a file name: everything before the last
dot, except that a dot at position 0 (hidden-file convention) does not
begin an extension. -/
def fileStem (name : String) : String :=
  match lastDotIdx name.data with
  | some i => if 0 < i then ⟨name.data.take i⟩ else name
  | none => name

/-- Rust set_extension("save"): replaces the extension of the final
component (or appends ".save" when there is none). -/
def setExtSave (name : String) : String :=
  fileStem name ++ ".save"

/-- The temporary path save_to derives from the entry path:
push(path) then set_extension("save"). -/
def savePathOf : FPath → FPath
  | [] => []
  | a :: as => (a :: as).dropLast ++ [setExtSave ((a :: as).getLast (List.cons_ne_nil a as))]

/-- What the spec's sentence describes: appending the fixed suffix
".save" to the full path, preserving the file name.
Modelled from the spec for the refinement comparison in C2. -/
def specSavePath : FPath → FPath
  | [] => []
  | a :: as => (a :: as).dropLast ++ [(a :: as).getLast (List.cons_ne_nil a as) ++ ".save"]

/-! ### The cache itself, transcribed from src/lib.rs -/

/-- LocalFileCache<T>: root directory plus the boxed conversion closures. -/
structure LocalFileCache (T : Type) where
  dir : FPath
  to_u8 : T → Option Bytes
  from_u8 : Bytes → T

namespace LocalFileCache

/-- LocalFileCache::new: dirs::cache_dir() (passed in as `cacheDir`,
none when the platform cache root cannot be determined), push the
sub path, store the closures.  Purely constructs the handle; its type
mentions no World, reflecting that new performs no filesystem I/O. -/
def new {T : Type} (cacheDir : Option FPath) (sub_path : FPath)
    (tu : T → Option Bytes) (fu : Bytes → T) : Option (LocalFileCache T) :=
  cacheDir.map (fun base => { dir := base ++ sub_path, to_u8 := tu, from_u8 := fu })

/-- LocalFileCache::invalidate: resolve cache root, push sub path,
remove_dir_all. -/
def invalidate (cacheDir : Option FPath) (sub_path : FPath) (w : World) :
    Option (Except ErrKind Unit × World) :=
  cacheDir.map (fun base => removeDirAll (base ++ sub_path) w)

/-- LocalFileCache::flush: remove_dir_all(dir) then create_dir(dir);
NotFound from the removal is a no-op success; other errors propagate. -/
def flush {T : Type} (c : LocalFileCache T) (w : World) : Except ErrKind Unit × World :=
  match removeDirAll c.dir w with
  | (.ok _, w) => createDir c.dir w
  | (.error e, w) => if e = .notFound then (.ok (), w) else (.error e, w)

/-- LocalFileCache::save_to: exclusive-create the ".save" sibling
(AlreadyExists means another writer is in flight: skip and succeed),
write all bytes, rename onto the final path. -/
def save_to (path : FPath) (bytes : Bytes) (w : World) : Except ErrKind Unit × World :=
  let save_path := savePathOf path
  match openCreateNew save_path w with
  | (.error k, w) => if k = .alreadyExists then (.ok (), w) else (.error k, w)
  | (.ok _, w) =>
    match writeAll save_path bytes w with
    | (.error k, w) => (.error k, w)
    | (.ok _, w) =>
      match renameFile save_path path w with
      | (.error k, w) => (.error k, w)
      | (.ok _, w) => (.ok (), w)

/-- LocalFileCache::or_insert_with: create_dir_all(dir); open dir/k;
on success read metadata-length bytes and decode; on NotFound produce
the value, save it when to_u8 yields bytes, and return it; any other
open/read error propagates. -/
def or_insert_with {T : Type} (c : LocalFileCache T) (k : FPath) (f : Unit → T)
    (w : World) : Except ErrKind T × World :=
  match createDirAll c.dir w with
  | (.error e, w) => (.error e, w)
  | (.ok _, w) =>
    let path := c.dir ++ k
    match openRead path w with
    | (.error e, w) =>
      if e = .notFound then
        let r := f ()
        match c.to_u8 r with
        | some bin =>
          match save_to path bin w with
          | (.error e, w) => (.error e, w)
          | (.ok _, w) => (.ok r, w)
        | none => (.ok r, w)
      else (.error e, w)
    | (.ok handle, w) =>
      match metadataLen handle w with
      | (.error e, w) => (.error e, w)
      | (.ok len, w) =>
        match readExact handle len w with
        | (.error e, w) => (.error e, w)
        | (.ok buffer, w) => (.ok (c.from_u8 buffer), w)

end LocalFileCache

/-! ### Interleaving model of concurrent save_to writers (for the
concurrency claim).  Two writers run save_to for the same entry path;
each writer's syscalls — exclusive-create of the shared temporary
path, write_all, rename onto the final path — are single atomic steps,
and a schedule interleaves them arbitrarily.  A writer whose
exclusive-create hits AlreadyExists skips to success, exactly as in
save_to. -/

/-- Program counter of one save_to writer. -/
inductive WPC : Type where
  | start
  | created
  | wrote
  | doneSkip
  | doneRenamed
deriving DecidableEq

/-- Shared state of two concurrent save_to writers for one entry:
the temporary file (shared, since both derive the same ".save" path),
the final entry file, and each writer's program counter. -/
structure CState where
  temp : Option Bytes
  fin : Option Bytes
  pc0 : WPC
  pc1 : WPC
deriving DecidableEq

/-- One step of the writer with payload `b`: exclusive-create
(AlreadyExists ⇒ skip-and-succeed), write_all, rename. -/
def wstep (b : Bytes) (pc : WPC) (temp fin : Option Bytes) :
    WPC × Option Bytes × Option Bytes :=
  match pc with
  | .start => if temp.isSome then (.doneSkip, temp, fin) else (.created, some [], fin)
  | .created => (.wrote, some b, fin)
  | .wrote => (.doneRenamed, none, temp)
  | .doneSkip => (.doneSkip, temp, fin)
  | .doneRenamed => (.doneRenamed, temp, fin)

/-- Run one scheduled step: `false` steps writer 0 (payload b0),
`true` steps writer 1 (payload b1). -/
def cstep (b0 b1 : Bytes) (s : CState) (i : Bool) : CState :=
  if i then
    let (pc, temp, fin) := wstep b1 s.pc1 s.temp s.fin
    { s with pc1 := pc, temp := temp, fin := fin }
  else
    let (pc, temp, fin) := wstep b0 s.pc0 s.temp s.fin
    { s with pc0 := pc, temp := temp, fin := fin }

/-- Run a whole schedule. -/
def runSched (b0 b1 : Bytes) (s : CState) (sched : List Bool) : CState :=
  sched.foldl (cstep b0 b1) s

/-- A writer currently holds the temporary file open. -/
def holdsTemp (pc : WPC) : Prop :=
  pc = .created ∨ pc = .wrote

instance (pc : WPC) : Decidable (holdsTemp pc) := by
  unfold holdsTemp; infer_instance

/-- Inductive invariant of the two-writer interleaving: the temporary
file is held by at most one writer and reflects its progress; a writer
that skipped saw the other one in flight; once a skipper and a renamer
are both done, the final file holds the renamer's bytes. -/
def CInv (b0 b1 : Bytes) (s : CState) : Prop :=
  (s.pc0 = .created → s.temp = some []) ∧
  (s.pc1 = .created → s.temp = some []) ∧
  (s.pc0 = .wrote → s.temp = some b0) ∧
  (s.pc1 = .wrote → s.temp = some b1) ∧
  ¬(holdsTemp s.pc0 ∧ holdsTemp s.pc1) ∧
  (s.temp.isSome → holdsTemp s.pc0 ∨ holdsTemp s.pc1) ∧
  (s.pc0 = .doneSkip → s.pc1 ≠ .start ∧ s.pc1 ≠ .doneSkip) ∧
  (s.pc1 = .doneSkip → s.pc0 ≠ .start ∧ s.pc0 ≠ .doneSkip) ∧
  (s.pc0 = .doneSkip → s.pc1 = .doneRenamed → s.fin = some b1) ∧
  (s.pc1 = .doneSkip → s.pc0 = .doneRenamed → s.fin = some b0)

/-! ### Helper lemmas -/

theorem underDir_refl (p : FPath) : underDir p p = true := by
  induction p with
  | nil => rfl
  | cons a as ih => simp [underDir, ih]

theorem foldl_insertDir_of_forall_mem :
    ∀ (l : List FPath) (ds : List FPath), (∀ q ∈ l, q ∈ ds) → l.foldl insertDir ds = ds := by
  intro l
  induction l with
  | nil => intro ds _; rfl
  | cons a t ih =>
    intro ds h
    have ha : a ∈ ds := h a (by simp)
    simp only [List.foldl_cons, insertDir, if_pos ha]
    exact ih ds (fun q hq => h q (by simp [hq]))

theorem mem_foldl_insertDir_of_mem_init :
    ∀ (l : List FPath) (ds : List FPath) (x : FPath), x ∈ ds → x ∈ l.foldl insertDir ds := by
  intro l
  induction l with
  | nil => intro ds x hx; simpa using hx
  | cons a t ih =>
    intro ds x hx
    simp only [List.foldl_cons]
    apply ih
    unfold insertDir
    split
    · exact hx
    · simp [hx]

theorem mem_foldl_insertDir_of_mem :
    ∀ (l : List FPath) (ds : List FPath) (q : FPath), q ∈ l → q ∈ l.foldl insertDir ds := by
  intro l
  induction l with
  | nil => intro ds q hq; simp at hq
  | cons a t ih =>
    intro ds q hq
    simp only [List.foldl_cons]
    rcases List.mem_cons.mp hq with h | h
    · subst h
      apply mem_foldl_insertDir_of_mem_init
      unfold insertDir
      split
      · assumption
      · simp
    · exact ih _ q h

theorem addDirs_of_forall_mem {dirs : List FPath} {p : FPath}
    (h : ∀ q ∈ nonemptyInits p, q ∈ dirs) : addDirs dirs p = dirs :=
  foldl_insertDir_of_forall_mem _ _ h

theorem self_mem_nonemptyInits {p : FPath} (h : p ≠ []) : p ∈ nonemptyInits p := by
  have hlen : 0 < p.length := List.length_pos.mpr h
  unfold nonemptyInits
  refine List.mem_map.mpr ⟨p.length - 1, ?_, ?_⟩
  · exact List.mem_range.mpr (by omega)
  · rw [Nat.sub_add_cancel hlen, List.take_length]

theorem self_mem_addDirs {dirs : List FPath} {p : FPath} (h : p ≠ []) :
    p ∈ addDirs dirs p :=
  mem_foldl_insertDir_of_mem _ _ _ (self_mem_nonemptyInits h)

theorem cinv_init (b0 b1 : Bytes) (fin0 : Option Bytes) :
    CInv b0 b1 ⟨none, fin0, .start, .start⟩ := by
  simp [CInv, holdsTemp]

theorem cinv_step (b0 b1 : Bytes) (s : CState) (i : Bool) (h : CInv b0 b1 s) :
    CInv b0 b1 (cstep b0 b1 s i) := by
  obtain ⟨temp, fin, pc0, pc1⟩ := s
  cases i <;> cases pc0 <;> cases pc1 <;> cases temp <;>
    simp_all [CInv, cstep, wstep, holdsTemp]

theorem cinv_run (b0 b1 : Bytes) :
    ∀ (sched : List Bool) (s : CState), CInv b0 b1 s →
      CInv b0 b1 (runSched b0 b1 s sched) := by
  intro sched
  induction sched with
  | nil => intro s h; simpa [runSched] using h
  | cons a t ih =>
    intro s h
    simp only [runSched, List.foldl_cons]
    exact ih (cstep b0 b1 s a) (cinv_step b0 b1 s a h)

/-- A file name with no extension in Rust's sense: no dot, or only a
leading dot (hidden-file convention). -/
def noExtension (name : String) : Bool :=
  match lastDotIdx name.data with
  | some i => decide (i = 0)
  | none => true

theorem fileStem_of_noExtension (name : String) (h : noExtension name = true) :
    fileStem name = name := by
  unfold noExtension at h
  unfold fileStem
  cases hd : lastDotIdx name.data with
  | none => rfl
  | some i =>
    rw [hd] at h
    simp only [decide_eq_true_eq] at h
    subst h
    simp

/-- C2 counterexample: set_extension("save") replaces an existing
extension instead of appending, so the file name is not preserved and
paths differing only in extension collide on the same temporary path. -/
theorem savePathOf_replaces_extension :
    savePathOf ["home", "test.txt"] = ["home", "test.save"] ∧
    savePathOf ["home", "test.txt"] ≠ specSavePath ["home", "test.txt"] ∧
    savePathOf ["a.x"] = savePathOf ["a.y"] ∧ (["a.x"] : FPath) ≠ ["a.y"] := by
  decide

/-- C2 (amended): the temporary path is the entry path with the final
component's extension replaced by "save"; only when the file name has
no extension does this coincide with appending ".save" to the path. -/
theorem savePathOf_appends_when_no_extension (p : FPath) (h : p ≠ [])
    (hx : noExtension (p.getLast h) = true) : savePathOf p = specSavePath p := by
  match p with
  | a :: as =>
    simp only [savePathOf, specSavePath, setExtSave]
    rw [fileStem_of_noExtension _ hx]

/-- C2 amended-claim witness at the repo's own key "data0". -/
theorem savePathOf_appends_when_no_extension_witness :
    noExtension ((["d", "data0"] : FPath).getLast (by decide)) = true ∧
    savePathOf ["d", "data0"] = specSavePath ["d", "data0"] :=
  ⟨by decide, savePathOf_appends_when_no_extension ["d", "data0"] (by decide) (by decide)⟩

/-- C3: when a file already sits at the derived temporary path,
save_to returns success and the world — temp file content, final file
content or absence, everything — is untouched. -/
theorem save_to_skips_when_temp_exists (p : FPath) (b : Bytes) (fs : FS) (c : Bytes)
    (h : lookupFile fs.files (savePathOf p) = some c) :
    LocalFileCache.save_to p b ⟨fs, []⟩ = (.ok (), ⟨fs, []⟩) := by
  simp [LocalFileCache.save_to, openCreateNew, popFault, h]

/-- C3 witness, mirroring the repo test save_to_skips_if_same_name_exists:
final file pre-seeded with 23, temp with 123, save of 34 is a no-op success. -/
theorem save_to_skips_when_temp_exists_witness :
    LocalFileCache.save_to ["d", "test"] [34]
      ⟨⟨[(["d", "test"], [23]), (["d", "test.save"], [123])], [["d"]]⟩, []⟩ =
    (.ok (), ⟨⟨[(["d", "test"], [23]), (["d", "test.save"], [123])], [["d"]]⟩, []⟩) :=
  save_to_skips_when_temp_exists ["d", "test"] [34]
    ⟨[(["d", "test"], [23]), (["d", "test.save"], [123])], [["d"]]⟩ [123] (by decide)

/-- C9: construction yields absent exactly when the platform cache
root is undeterminable; otherwise the handle's root directory is the
cache root extended with the sub path and it stores both conversion
functions.  new takes no World: the embedding performs no filesystem
I/O at construction, mirroring the source. -/
theorem new_absent_iff_no_cache_dir (T : Type) (cd : Option FPath) (sp : FPath)
    (tu : T → Option Bytes) (fu : Bytes → T) :
    (LocalFileCache.new cd sp tu fu = none ↔ cd = none) ∧
    (∀ base, cd = some base →
      LocalFileCache.new cd sp tu fu = some ⟨base ++ sp, tu, fu⟩) := by
  constructor
  · cases cd <;> simp [LocalFileCache.new]
  · intro base hb
    subst hb
    rfl

/-- C9 witness at a concrete cache root and sub path. -/
theorem new_absent_iff_no_cache_dir_witness :
    LocalFileCache.new (some [".cache"]) ["app"] (fun n : Nat => some [n])
        (fun b => b.length) =
      some ⟨[".cache", "app"], fun n : Nat => some [n], fun b => b.length⟩ ∧
    LocalFileCache.new (T := Nat) none ["app"] (fun n => some [n]) (fun b => b.length) =
      none :=
  ⟨(new_absent_iff_no_cache_dir Nat (some [".cache"]) ["app"] _ _).2 [".cache"] rfl,
   (new_absent_iff_no_cache_dir Nat none ["app"] _ _).1.mpr rfl⟩

/-- C5: in every interleaving of two save_to writers for the same
entry (starting with no temporary file), if both finish and one of
them skipped after its exclusive-create hit AlreadyExists, then the
other writer is the one that created first and renamed, and the final
durable content is exactly that winner's bytes — the skipper wrote
nothing and did not disturb the winner's data. -/
theorem concurrent_save_first_create_wins (b0 b1 : Bytes) (fin0 : Option Bytes)
    (sched : List Bool)
    (h0 : (runSched b0 b1 ⟨none, fin0, .start, .start⟩ sched).pc0 = .doneSkip ∨
          (runSched b0 b1 ⟨none, fin0, .start, .start⟩ sched).pc0 = .doneRenamed)
    (h1 : (runSched b0 b1 ⟨none, fin0, .start, .start⟩ sched).pc1 = .doneSkip ∨
          (runSched b0 b1 ⟨none, fin0, .start, .start⟩ sched).pc1 = .doneRenamed) :
    ((runSched b0 b1 ⟨none, fin0, .start, .start⟩ sched).pc0 = .doneSkip →
      (runSched b0 b1 ⟨none, fin0, .start, .start⟩ sched).pc1 = .doneRenamed ∧
      (runSched b0 b1 ⟨none, fin0, .start, .start⟩ sched).fin = some b1) ∧
    ((runSched b0 b1 ⟨none, fin0, .start, .start⟩ sched).pc1 = .doneSkip →
      (runSched b0 b1 ⟨none, fin0, .start, .start⟩ sched).pc0 = .doneRenamed ∧
      (runSched b0 b1 ⟨none, fin0, .start, .start⟩ sched).fin = some b0) := by
  have hinv := cinv_run b0 b1 sched ⟨none, fin0, .start, .start⟩ (cinv_init b0 b1 fin0)
  obtain ⟨-, -, -, -, -, -, h7, h8, h9, h10⟩ := hinv
  constructor
  · intro hsk
    rcases h1 with h | h
    · exact absurd h (h7 hsk).2
    · exact ⟨h, h9 hsk h⟩
  · intro hsk
    rcases h0 with h | h
    · exact absurd h (h8 hsk).2
    · exact ⟨h, h10 hsk h⟩

/-- C5 witness: writer 0 creates, writer 1 collides and skips, writer 0
writes and renames; the final file holds writer 0's bytes. -/
theorem concurrent_save_first_create_wins_witness :
    (runSched [1] [2] ⟨none, some [9], .start, .start⟩ [false, true, false, false]).fin =
      some [1] :=
  ((concurrent_save_first_create_wins [1] [2] (some [9]) [false, true, false, false]
      (by decide) (by decide)).2 (by decide)).2

theorem addDirs_idem (dirs : List FPath) (p : FPath) :
    addDirs (addDirs dirs p) p = addDirs dirs p :=
  addDirs_of_forall_mem (fun q hq => mem_foldl_insertDir_of_mem _ _ q hq)

/-- Evaluation of or_insert_with on a miss whose encode declines:
the produced value is returned, no file is touched, and the only
filesystem effect is create_dir_all on the root. -/
theorem oiw_declined_eval (T : Type) (c : LocalFileCache T) (k : FPath) (f : Unit → T)
    (fs : FS) (hlook : lookupFile fs.files (c.dir ++ k) = none)
    (henc : c.to_u8 (f ()) = none) :
    c.or_insert_with k f ⟨fs, []⟩ =
      (.ok (f ()), ⟨⟨fs.files, addDirs fs.dirs c.dir⟩, []⟩) := by
  simp [LocalFileCache.or_insert_with, createDirAll, openRead, popFault, hlook, henc]

/-- C4: when the entry file exists (and the root directory chain does,
as it must on a real filesystem holding that file), or_insert_with
returns from_u8 of the file's full content — read at the exact length
its metadata reports — and leaves the world untouched: no disk write.
The producer f is universally quantified and absent from the result,
so it is never invoked. -/
theorem or_insert_with_hit_returns_decoded (T : Type) (c : LocalFileCache T)
    (k : FPath) (f : Unit → T) (fs : FS) (cont : Bytes)
    (hdirs : ∀ q ∈ nonemptyInits c.dir, q ∈ fs.dirs)
    (hlook : lookupFile fs.files (c.dir ++ k) = some cont) :
    c.or_insert_with k f ⟨fs, []⟩ = (.ok (c.from_u8 cont), ⟨fs, []⟩) := by
  have had : addDirs fs.dirs c.dir = fs.dirs := addDirs_of_forall_mem hdirs
  simp [LocalFileCache.or_insert_with, createDirAll, openRead, metadataLen, readExact,
        popFault, had, hlook, List.take_length]

/-- C4 witness, mirroring the repo test: entry "data0" present, the
stored byte is decoded and returned as-is. -/
theorem or_insert_with_hit_returns_decoded_witness :
    LocalFileCache.or_insert_with
        { dir := ["d"], to_u8 := fun n : Nat => some [n], from_u8 := fun b => b.headD 0 }
        ["data0"] (fun _ => 234) ⟨⟨[(["d", "data0"], [123])], [["d"]]⟩, []⟩ =
      (.ok 123, ⟨⟨[(["d", "data0"], [123])], [["d"]]⟩, []⟩) :=
  or_insert_with_hit_returns_decoded Nat
    { dir := ["d"], to_u8 := fun n => some [n], from_u8 := fun b => b.headD 0 }
    ["data0"] (fun _ => 234) ⟨[(["d", "data0"], [123])], [["d"]]⟩ [123]
    (by decide) (by decide)

/-- C8: on a miss whose value the encoder declines, the fresh value is
returned, the file map is untouched (no entry file is created), and a
later or_insert_with for the same key reaches its own producer again:
for every g it returns g's value, the miss having persisted. -/
theorem or_insert_with_declined_encode_miss_persists (T : Type) (c : LocalFileCache T)
    (k : FPath) (f : Unit → T) (fs : FS)
    (hlook : lookupFile fs.files (c.dir ++ k) = none)
    (henc : c.to_u8 (f ()) = none) :
    c.or_insert_with k f ⟨fs, []⟩ =
      (.ok (f ()), ⟨⟨fs.files, addDirs fs.dirs c.dir⟩, []⟩) ∧
    (∀ g : Unit → T, c.to_u8 (g ()) = none →
      c.or_insert_with k g (c.or_insert_with k f ⟨fs, []⟩).2 =
        (.ok (g ()), (c.or_insert_with k f ⟨fs, []⟩).2)) := by
  have h1 := oiw_declined_eval T c k f fs hlook henc
  refine ⟨h1, fun g hg => ?_⟩
  rw [h1]
  have h2 := oiw_declined_eval T c k g ⟨fs.files, addDirs fs.dirs c.dir⟩ hlook hg
  rw [h2, addDirs_idem]

/-- C8 witness: encoder that declines everything; two successive calls
each run their own producer and the file map stays empty. -/
theorem or_insert_with_declined_encode_miss_persists_witness :
    LocalFileCache.or_insert_with
        { dir := ["d"], to_u8 := fun _ : Nat => none, from_u8 := fun b => b.headD 0 }
        ["data0"] (fun _ => 123) ⟨⟨[], []⟩, []⟩ =
      (.ok 123, ⟨⟨[], addDirs [] ["d"]⟩, []⟩) :=
  (or_insert_with_declined_encode_miss_persists Nat
    { dir := ["d"], to_u8 := fun _ => none, from_u8 := fun b => b.headD 0 }
    ["data0"] (fun _ => 123) ⟨[], []⟩ (by decide) (by decide)).1

/-- C7 counterexample: with no directory present at all, a call whose
encode declines (so no write happens) still creates the root
directory — the directory tree does not stay unchanged. -/
theorem or_insert_with_creates_root_dir_without_write :
    (LocalFileCache.or_insert_with
        { dir := ["root"], to_u8 := fun _ : Nat => none, from_u8 := fun _ => 0 }
        ["k"] (fun _ => 0) ⟨⟨[], []⟩, []⟩).1 = .ok 0 ∧
    (LocalFileCache.or_insert_with
        { dir := ["root"], to_u8 := fun _ : Nat => none, from_u8 := fun _ => 0 }
        ["k"] (fun _ => 0) ⟨⟨[], []⟩, []⟩).2.fs.dirs ≠ ([] : List FPath) := by
  exact ⟨rfl, by decide⟩

/-- C7 (amended): or_insert_with ensures the root directory chain on
every call, write or not: a no-write (declined-encode) call leaves the
tree unchanged exactly when the chain already exists, and when the
root is absent the call itself creates it. -/
theorem or_insert_with_root_dir_creation_eager (T : Type) (c : LocalFileCache T)
    (k : FPath) (f : Unit → T) (fs : FS) (hne : c.dir ≠ [])
    (hlook : lookupFile fs.files (c.dir ++ k) = none)
    (henc : c.to_u8 (f ()) = none) :
    ((∀ q ∈ nonemptyInits c.dir, q ∈ fs.dirs) →
      c.or_insert_with k f ⟨fs, []⟩ = (.ok (f ()), ⟨fs, []⟩)) ∧
    c.dir ∈ (c.or_insert_with k f ⟨fs, []⟩).2.fs.dirs := by
  constructor
  · intro hdirs
    rw [oiw_declined_eval T c k f fs hlook henc, addDirs_of_forall_mem hdirs]
  · rw [oiw_declined_eval T c k f fs hlook henc]
    exact self_mem_addDirs hne

/-- C7 amended-claim witness: root chain present, declined-encode call
is a complete no-op on the world. -/
theorem or_insert_with_root_dir_creation_eager_witness :
    LocalFileCache.or_insert_with
        { dir := ["root"], to_u8 := fun _ : Nat => none, from_u8 := fun _ => 0 }
        ["k"] (fun _ => 7) ⟨⟨[], [["root"]]⟩, []⟩ =
      (.ok 7, ⟨⟨[], [["root"]]⟩, []⟩) :=
  (or_insert_with_root_dir_creation_eager Nat
    { dir := ["root"], to_u8 := fun _ => none, from_u8 := fun _ => 0 }
    ["k"] (fun _ => 7) ⟨[], [["root"]]⟩ (by decide) (by decide) (by decide)).1 (by decide)

/-- C1 counterexample: entry file absent, encode yields bytes, and the
write inside the atomic save fails; the call returns the I/O error,
not the freshly computed value 5. -/
theorem save_failure_not_returned_as_value :
    (LocalFileCache.or_insert_with
        { dir := ["r"], to_u8 := fun n : Nat => some [n], from_u8 := fun b => b.headD 0 }
        ["k"] (fun _ => 5) ⟨⟨[], []⟩, [none, none, none, some .other]⟩).1 =
      .error .other ∧
    (LocalFileCache.or_insert_with
        { dir := ["r"], to_u8 := fun n : Nat => some [n], from_u8 := fun b => b.headD 0 }
        ["k"] (fun _ => 5) ⟨⟨[], []⟩, [none, none, none, some .other]⟩).1 ≠
      .ok 5 := by
  decide

/-- C1 (amended): on a miss where encode yields bytes, a failure of
the atomic save (here: the write of the temporary file fails with any
kind kw) is propagated as the call's error — persistence failure is
fatal, not best-effort; only the AlreadyExists collision at temporary
creation is tolerated. -/
theorem or_insert_with_save_failure_propagates (T : Type) (c : LocalFileCache T)
    (k : FPath) (f : Unit → T) (fs : FS) (bin : Bytes) (kw : ErrKind)
    (hlook : lookupFile fs.files (c.dir ++ k) = none)
    (htemp : lookupFile fs.files (savePathOf (c.dir ++ k)) = none)
    (henc : c.to_u8 (f ()) = some bin) :
    (c.or_insert_with k f ⟨fs, [none, none, none, some kw]⟩).1 = .error kw := by
  simp [LocalFileCache.or_insert_with, createDirAll, openRead, popFault, hlook, henc,
        LocalFileCache.save_to, openCreateNew, writeAll, htemp]

/-- C1 amended-claim witness. -/
theorem or_insert_with_save_failure_propagates_witness :
    (LocalFileCache.or_insert_with
        { dir := ["r"], to_u8 := fun n : Nat => some [n], from_u8 := fun b => b.headD 0 }
        ["k"] (fun _ => 5) ⟨⟨[], []⟩, [none, none, none, some .permissionDenied]⟩).1 =
      .error .permissionDenied :=
  or_insert_with_save_failure_propagates Nat
    { dir := ["r"], to_u8 := fun n => some [n], from_u8 := fun b => b.headD 0 }
    ["k"] (fun _ => 5) ⟨[], []⟩ [5] .permissionDenied (by decide) (by decide) (by decide)

/-- C6: flush on an absent root directory is a no-op success; on an
existing one it deletes everything beneath the root and recreates the
root empty; any other I/O failure of the removal (injected fault of a
kind other than NotFound) is returned to the caller. -/
theorem flush_spec (T : Type) :
    (∀ (c : LocalFileCache T) (fs : FS), c.dir ∉ fs.dirs →
      c.flush ⟨fs, []⟩ = (.ok (), ⟨fs, []⟩)) ∧
    (∀ (c : LocalFileCache T) (fs : FS), c.dir ∈ fs.dirs →
      c.flush ⟨fs, []⟩ =
        (.ok (), ⟨⟨fs.files.filter (fun fc => ! underDir c.dir fc.1),
                   fs.dirs.filter (fun d => ! underDir c.dir d) ++ [c.dir]⟩, []⟩)) ∧
    (∀ (c : LocalFileCache T) (fs : FS) (kw : ErrKind) (rest : List (Option ErrKind)),
      kw ≠ .notFound →
      c.flush ⟨fs, some kw :: rest⟩ = (.error kw, ⟨fs, rest⟩)) := by
  refine ⟨fun c fs h => ?_, fun c fs h => ?_, fun c fs kw rest hk => ?_⟩
  · simp [LocalFileCache.flush, removeDirAll, popFault, h]
  · simp [LocalFileCache.flush, removeDirAll, createDir, popFault, h,
          List.mem_filter, underDir_refl]
  · simp [LocalFileCache.flush, removeDirAll, popFault, hk]

/-- C6 witness: all three behaviors at concrete worlds — absent root,
populated root (entry files discarded, root recreated), and an
injected PermissionDenied. -/
theorem flush_spec_witness :
    LocalFileCache.flush
        { dir := ["d"], to_u8 := fun n : Nat => some [n], from_u8 := fun b => b.headD 0 }
        ⟨⟨[], []⟩, []⟩ = (.ok (), ⟨⟨[], []⟩, []⟩) ∧
    LocalFileCache.flush
        { dir := ["d"], to_u8 := fun n : Nat => some [n], from_u8 := fun b => b.headD 0 }
        ⟨⟨[(["d", "x"], [1]), (["e", "y"], [2])], [["d"], ["d", "sub"], ["e"]]⟩, []⟩ =
      (.ok (), ⟨⟨[(["d", "x"], [1]), (["e", "y"], [2])].filter
                   (fun fc => ! underDir ["d"] fc.1),
                 [["d"], ["d", "sub"], ["e"]].filter (fun d => ! underDir ["d"] d) ++
                   [["d"]]⟩, []⟩) ∧
    LocalFileCache.flush
        { dir := ["d"], to_u8 := fun n : Nat => some [n], from_u8 := fun b => b.headD 0 }
        ⟨⟨[], [["d"]]⟩, [some .permissionDenied]⟩ =
      (.error .permissionDenied, ⟨⟨[], [["d"]]⟩, []⟩) :=
  ⟨(flush_spec Nat).1 _ ⟨[], []⟩ (by decide),
   (flush_spec Nat).2.1 _ ⟨[(["d", "x"], [1]), (["e", "y"], [2])],
      [["d"], ["d", "sub"], ["e"]]⟩ (by decide),
   (flush_spec Nat).2.2 _ ⟨[], [["d"]]⟩ .permissionDenied [] (by decide)⟩

/-- C10: when opening the entry file fails with any kind other than
NotFound (injected fault at the open syscall), or_insert_with returns
that error; the file map is untouched and the directories change only
by create_dir_all on the root.  The producer f is universally
quantified and absent from the result, so it is never invoked. -/
theorem or_insert_with_open_error_propagates (T : Type) (c : LocalFileCache T)
    (k : FPath) (f : Unit → T) (fs : FS) (kw : ErrKind)
    (rest : List (Option ErrKind)) (hk : kw ≠ .notFound) :
    c.or_insert_with k f ⟨fs, none :: some kw :: rest⟩ =
      (.error kw, ⟨⟨fs.files, addDirs fs.dirs c.dir⟩, rest⟩) := by
  simp [LocalFileCache.or_insert_with, createDirAll, openRead, popFault, hk]

/-- C10 witness: PermissionDenied at open propagates; the entry file's
bytes and the rest of the tree are untouched. -/
theorem or_insert_with_open_error_propagates_witness :
    LocalFileCache.or_insert_with
        { dir := ["r"], to_u8 := fun n : Nat => some [n], from_u8 := fun b => b.headD 0 }
        ["k"] (fun _ => 5) ⟨⟨[(["r", "k"], [9])], [["r"]]⟩, [none, some .permissionDenied]⟩ =
      (.error .permissionDenied,
        ⟨⟨[(["r", "k"], [9])], addDirs [["r"]] ["r"]⟩, []⟩) :=
  or_insert_with_open_error_propagates Nat
    { dir := ["r"], to_u8 := fun n => some [n], from_u8 := fun b => b.headD 0 }
    ["k"] (fun _ => 5) ⟨[(["r", "k"], [9])], [["r"]]⟩ .permissionDenied [] (by decide)
